import Mathlib

/-!
Shallow embedding of `src/imaml.py` (meta-training control loop).

Modelling conventions:
- Python floats are modelled as exact rationals `ℚ`; `NaN` (the value
  `np.mean` returns on an empty list) is modelled as `none` in `Option ℚ`.
- The `MetaLearner` variants (`gbml/maml.py` etc.) are outside `src/`; their
  `outer_loop` interface is an abstract parameter: a train step may update the
  learner state, an eval step is a function of the state and the batch.
- `tqdm` progress bars and `pbar.set_description` are display only and do not
  affect any returned value; they are omitted.
- `main`'s side effects (checkpoint load, stream construction, result-log
  append, checkpoint save, lr scheduling) are modelled as an event trace.
-/

namespace Imaml

/-- The configuration fields of `argparse` that the control loop reads
(`src/imaml.py` lines 165-229). -/
structure Args where
  alg : String
  load : Bool
  load_encoder : Bool
  num_epoch : ℕ
  num_train_batches : ℕ
  num_valid_batches : ℕ
  lr_sched : Bool
deriving DecidableEq

/-- Abstract interface of a meta-learner (the `gbml` classes, outside the
core): `outer_loop(batch, is_train=True)` returns `(loss, acc, grad)` and may
mutate the learner state; `outer_loop(batch, is_train=False)` returns
`(loss, acc)` and, in general, a successor state (whether it actually mutates
is a contract of the implementations, see claim C4). -/
structure MetaLearner (σ β : Type) where
  outer_loop_train : σ → β → σ × ℚ × ℚ × ℚ
  outer_loop_eval : σ → β → σ × ℚ × ℚ

/-- `np.mean` of a list: `NaN` (`none`) on the empty list, else the arithmetic
mean. -/
def npMean (xs : List ℚ) : Option ℚ :=
  if xs.isEmpty then none else some (xs.sum / xs.length)

/-- Round-half-to-even at integer precision, the rounding mode of `np.round`. -/
def roundHalfEven (q : ℚ) : ℤ :=
  if q - ⌊q⌋ = 1/2 then (if Even ⌊q⌋ then ⌊q⌋ else ⌊q⌋ + 1) else round q

/-- `np.round(x, 4)`: round-half-to-even at 4 decimal digits. -/
def np_round4 (q : ℚ) : ℚ := (roundHalfEven (q * 10000) : ℚ) / 10000

/-- `np.round(np.mean(xs), 4)` (`src/imaml.py` lines 39-41 and 62-63):
the mean is taken unrounded and rounding is applied once, at the end;
`np.round` of `NaN` is `NaN`. -/
def aggregate (xs : List ℚ) : Option ℚ := (npMean xs).map np_round4

/-- The loop body of `train` (`src/imaml.py` lines 27-37): `enumerate` pulls a
batch, `outer_loop(batch, is_train=True)` runs, the three logs are appended,
and the loop breaks after processing when `batch_idx >= num_train_batches`.
Returns the final learner state and the three metric lists. -/
def trainLoop (L : MetaLearner σ β) (k : ℕ) :
    σ → ℕ → List β → σ × List ℚ × List ℚ × List ℚ
  | s, _, [] => (s, [], [], [])
  | s, idx, b :: rest =>
    match L.outer_loop_train s b with
    | (s', l, a, g) =>
      if k ≤ idx then (s', [l], [a], [g])
      else
        match trainLoop L k s' (idx + 1) rest with
        | (s'', ls, accs, gs) => (s'', l :: ls, a :: accs, g :: gs)

/-- `train(args, model, dataloader)` (`src/imaml.py` lines 21-43): run the
loop, then return `np.round(np.mean(·), 4)` of each collected list. -/
def train (args : Args) (L : MetaLearner σ β) (s : σ) (dataloader : List β) :
    σ × Option ℚ × Option ℚ × Option ℚ :=
  match trainLoop L args.num_train_batches s 0 dataloader with
  | (s', ls, accs, gs) => (s', aggregate ls, aggregate accs, aggregate gs)

/-- The loop body of `valid` (`src/imaml.py` lines 51-60): same shape as the
train loop, with `outer_loop(batch, is_train=False)`, two logs, and the bound
`num_valid_batches`. -/
def validLoop (L : MetaLearner σ β) (k : ℕ) :
    σ → ℕ → List β → σ × List ℚ × List ℚ
  | s, _, [] => (s, [], [])
  | s, idx, b :: rest =>
    match L.outer_loop_eval s b with
    | (s', l, a) =>
      if k ≤ idx then (s', [l], [a])
      else
        match validLoop L k s' (idx + 1) rest with
        | (s'', ls, accs) => (s'', l :: ls, a :: accs)

/-- `valid(args, model, dataloader)` (`src/imaml.py` lines 45-65). -/
def valid (args : Args) (L : MetaLearner σ β) (s : σ) (dataloader : List β) :
    σ × Option ℚ × Option ℚ :=
  match validLoop L args.num_valid_batches s 0 dataloader with
  | (s', ls, accs) => (s', aggregate ls, aggregate accs)

/-- The per-epoch result record (`res` in `run_epoch`). Metric fields are
`Option ℚ` because `np.mean` of an empty list is `NaN`. -/
structure EpochRes where
  epoch : ℕ
  train_loss : Option ℚ
  train_acc : Option ℚ
  train_grad : Option ℚ
  valid_loss : Option ℚ
  valid_acc : Option ℚ
  test_loss : Option ℚ
  test_acc : Option ℚ
deriving DecidableEq, Inhabited

/-- A value stored in the `OrderedDict`: the epoch index or a metric. -/
inductive Cell where
  | nat : ℕ → Cell
  | num : Option ℚ → Cell
deriving DecidableEq

/-- The `OrderedDict` built by `run_epoch` (`src/imaml.py` lines 70-85), as
its ordered key/value list: insertion order of the `res[...] = ...`
assignments. -/
def EpochRes.items (r : EpochRes) : List (String × Cell) :=
  [("epoch", .nat r.epoch),
   ("train_loss", .num r.train_loss),
   ("train_acc", .num r.train_acc),
   ("train_grad", .num r.train_grad),
   ("valid_loss", .num r.valid_loss),
   ("valid_acc", .num r.valid_acc),
   ("test_loss", .num r.test_loss),
   ("test_acc", .num r.test_acc)]

/-- The undecorated body of `run_epoch` (`src/imaml.py` lines 68-85):
`train` on the train loader, then `valid` on the valid loader, then `valid`
on the test loader (both eval calls use `num_valid_batches`), threading the
learner state, then assemble the record. -/
def run_epoch_body (epoch : ℕ) (args : Args) (L : MetaLearner σ β) (s : σ)
    (train_loader valid_loader test_loader : List β) : σ × EpochRes :=
  match train args L s train_loader with
  | (s1, train_loss, train_acc, train_grad) =>
    match valid args L s1 valid_loader with
    | (s2, valid_loss, valid_acc) =>
      match valid args L s2 test_loader with
      | (s3, test_loss, test_acc) =>
        (s3, ⟨epoch, train_loss, train_acc, train_grad,
              valid_loss, valid_acc, test_loss, test_acc⟩)

/-- Modelled from the spec: the state of the `BestTracker` decorator, which
lives in `utils.py`, a file of this repository that is not under `src/`.
Spec §3: `{best_value, best_epoch}`, initialized to the worst-possible value
before epoch 0. `none` stands for that initial worst-possible value. -/
structure BestState where
  best_value : Option ℚ
  best_epoch : Option ℕ
deriving DecidableEq

/-- The initial `BestState` (worst possible, before epoch 0). -/
def initBest : BestState := ⟨none, none⟩

/-- Strict greater-than against the tracked best: any value beats the initial
worst-possible state; `NaN` (`none` on the left) beats nothing. -/
def vgt : Option ℚ → Option ℚ → Bool
  | some x, some y => decide (y < x)
  | some _, none => true
  | none, _ => false

/-- Modelled from the spec: one step of `BestTracker` (`utils.py`, not under
`src/`). Spec §4.3: compare `valid_acc` against `best_value` with strict
greater-than; on strict improvement update to `(valid_acc, epoch)` and report
`is_best = true`, otherwise report `is_best = false`. -/
def bestTrackerStep (st : BestState) (r : EpochRes) : BestState × Bool :=
  if vgt r.valid_acc st.best_value then (⟨r.valid_acc, some r.epoch⟩, true)
  else (st, false)

/-- The `is_best` flags produced by running `bestTrackerStep` over a sequence
of epoch results from state `st`. -/
def bestScan (st : BestState) : List EpochRes → List Bool
  | [] => []
  | r :: rest =>
    match bestTrackerStep st r with
    | (st', flag) => flag :: bestScan st' rest

/-- The `BestState` after folding a sequence of epoch results from `initBest`. -/
def bestFoldState (rs : List EpochRes) : BestState :=
  rs.foldl (fun st r => (bestTrackerStep st r).1) initBest

/-- `run_epoch` as `main` sees it: the `@BestTracker`-decorated body, returning
`(res, is_best)` together with the threaded learner and tracker state. -/
def run_epoch (epoch : ℕ) (args : Args) (L : MetaLearner σ β) (s : σ)
    (train_loader valid_loader test_loader : List β) (best : BestState) :
    σ × EpochRes × BestState × Bool :=
  match run_epoch_body epoch args L s train_loader valid_loader test_loader with
  | (s', r) =>
    match bestTrackerStep best r with
    | (best', flag) => (s', r, best', flag)

/-- The algorithm variants of the `if/elif` chain in `main`
(`src/imaml.py` lines 89-100). -/
inductive Alg where
  | MAML | Reptile | Neumann | CAVIA | iMAML | FOMAML
deriving DecidableEq

/-- The dispatch of `main` (`src/imaml.py` lines 89-102): a chain of string
comparisons; any other name reaches the `raise ValueError` branch (`none`). -/
def dispatch (alg : String) : Option Alg :=
  if alg = "MAML" then some .MAML
  else if alg = "Reptile" then some .Reptile
  else if alg = "Neumann" then some .Neumann
  else if alg = "CAVIA" then some .CAVIA
  else if alg = "iMAML" then some .iMAML
  else if alg = "FOMAML" then some .FOMAML
  else none

/-- The externally visible side effects of `main`, in program order. -/
inductive Event where
  | load
  | load_encoder
  | buildStream : String → Event
  | append : ℕ → Event
  | save : ℕ → Event
  | lr_sched
deriving DecidableEq

/-- The error `main` raises on an unknown algorithm name
(`raise ValueError('Not implemented Meta-Learning Algorithm')`). -/
inductive MainError where
  | notImplementedAlg
deriving DecidableEq

/-- The checkpoint-loading events of `main` (`src/imaml.py` lines 104-107):
`if args.load: model.load()` / `elif args.load_encoder: model.load_encoder()`. -/
def loadEvents (args : Args) : List Event :=
  if args.load then [Event.load]
  else if args.load_encoder then [Event.load_encoder] else []

/-- The three dataset/loader constructions of `main`
(`src/imaml.py` lines 109-147), in order. -/
def streamEvents : List Event :=
  [Event.buildStream "train", Event.buildStream "val", Event.buildStream "test"]

/-- One iteration of the epoch loop of `main` (`src/imaml.py` lines 149-161):
`run_epoch`, then `dict2tsv(res, filename)` (the `append` event), then
`model.save(...)` if `is_best`, then `lr_sched()` if enabled
(`torch.cuda.empty_cache()` has no modelled effect). The per-epoch streams
are given as families `ℕ → List β` since the loaders re-shuffle each epoch. -/
def epochStep (args : Args) (L : MetaLearner σ β) (ts vs ws : ℕ → List β)
    (st : σ × BestState) (e : ℕ) : (σ × BestState) × List Event :=
  match run_epoch e args L st.1 (ts e) (vs e) (ws e) st.2 with
  | (s', _r, best', flag) =>
    ((s', best'),
      [Event.append e] ++ (if flag then [Event.save e] else [])
        ++ (if args.lr_sched then [Event.lr_sched] else []))

/-- The epoch loop of `main` over a list of epoch indices, collecting the
event trace. -/
def epochLoop (args : Args) (L : MetaLearner σ β) (ts vs ws : ℕ → List β) :
    σ × BestState → List ℕ → (σ × BestState) × List Event
  | st, [] => (st, [])
  | st, e :: rest =>
    match epochStep args L ts vs ws st e with
    | (st', evs) =>
      match epochLoop args L ts vs ws st' rest with
      | (st'', evs') => (st'', evs ++ evs')

/-- `main(args)` (`src/imaml.py` lines 87-163) as an event trace: dispatch on
the algorithm name (raising on an unknown name before anything else), then
the checkpoint-load step, then the three stream constructions, then the epoch
loop over `range(num_epoch)`. -/
def mainRun (args : Args) (L : MetaLearner σ β) (s0 : σ)
    (ts vs ws : ℕ → List β) :
    Except MainError (List Event × σ × BestState) :=
  match dispatch args.alg with
  | none => .error .notImplementedAlg
  | some _ =>
    match epochLoop args L ts vs ws (s0, initBest) (List.range args.num_epoch) with
    | (st, epochEvs) => .ok (loadEvents args ++ streamEvents ++ epochEvs, st)

/-- The running best value of a fold of `bestTrackerStep`, tracked over the
plain `valid_acc` values (proof device for the `BestTracker` lemmas). -/
def runningBest (b : Option ℚ) (l : List ℚ) : Option ℚ :=
  l.foldl (fun acc x => if vgt (some x) acc then some x else acc) b

/-- A concrete learner for witnesses: train increments the state, eval leaves
it unchanged. -/
def Lw : MetaLearner ℚ ℕ where
  outer_loop_train := fun s b => (s + 1, (b : ℚ), (b : ℚ) / 2, 1)
  outer_loop_eval := fun s b => (s, (b : ℚ) + s, 1 / 2)

/-- Concrete args for witnesses. -/
def argsW : Args :=
  { alg := "MAML", load := false, load_encoder := false, num_epoch := 1,
    num_train_batches := 2, num_valid_batches := 3, lr_sched := false }

/-- An epoch result carrying only an epoch index and a `valid_acc`. -/
def mkRes (e : ℕ) (v : ℚ) : EpochRes :=
  ⟨e, none, none, none, none, some v, none, none⟩

/-- Two epochs with identical `valid_acc` (spec §8's tie scenario). -/
def rsW : List EpochRes := [mkRes 0 (4 / 5), mkRes 1 (4 / 5)]

/-- The `valid_acc` values of `rsW`. -/
def vasW : List ℚ := [4 / 5, 4 / 5]

/-! ### Unfolding lemmas for the phase loops -/

theorem trainLoop_nil (L : MetaLearner σ β) (k : ℕ) (s : σ) (idx : ℕ) :
    trainLoop L k s idx [] = (s, [], [], []) := rfl

theorem trainLoop_cons (L : MetaLearner σ β) (k : ℕ) (s : σ) (idx : ℕ)
    (b : β) (rest : List β) :
    trainLoop L k s idx (b :: rest) =
      if k ≤ idx then
        ((L.outer_loop_train s b).1, [(L.outer_loop_train s b).2.1],
          [(L.outer_loop_train s b).2.2.1], [(L.outer_loop_train s b).2.2.2])
      else
        ((trainLoop L k (L.outer_loop_train s b).1 (idx + 1) rest).1,
          (L.outer_loop_train s b).2.1 ::
            (trainLoop L k (L.outer_loop_train s b).1 (idx + 1) rest).2.1,
          (L.outer_loop_train s b).2.2.1 ::
            (trainLoop L k (L.outer_loop_train s b).1 (idx + 1) rest).2.2.1,
          (L.outer_loop_train s b).2.2.2 ::
            (trainLoop L k (L.outer_loop_train s b).1 (idx + 1) rest).2.2.2) := by
  rw [trainLoop]

theorem validLoop_nil (L : MetaLearner σ β) (k : ℕ) (s : σ) (idx : ℕ) :
    validLoop L k s idx [] = (s, [], []) := rfl

theorem validLoop_cons (L : MetaLearner σ β) (k : ℕ) (s : σ) (idx : ℕ)
    (b : β) (rest : List β) :
    validLoop L k s idx (b :: rest) =
      if k ≤ idx then
        ((L.outer_loop_eval s b).1, [(L.outer_loop_eval s b).2.1],
          [(L.outer_loop_eval s b).2.2])
      else
        ((validLoop L k (L.outer_loop_eval s b).1 (idx + 1) rest).1,
          (L.outer_loop_eval s b).2.1 ::
            (validLoop L k (L.outer_loop_eval s b).1 (idx + 1) rest).2.1,
          (L.outer_loop_eval s b).2.2 ::
            (validLoop L k (L.outer_loop_eval s b).1 (idx + 1) rest).2.2) := by
  rw [validLoop]

theorem train_eq (args : Args) (L : MetaLearner σ β) (s : σ) (d : List β) :
    train args L s d =
      ((trainLoop L args.num_train_batches s 0 d).1,
        aggregate (trainLoop L args.num_train_batches s 0 d).2.1,
        aggregate (trainLoop L args.num_train_batches s 0 d).2.2.1,
        aggregate (trainLoop L args.num_train_batches s 0 d).2.2.2) := by
  rw [train]

theorem valid_eq (args : Args) (L : MetaLearner σ β) (s : σ) (d : List β) :
    valid args L s d =
      ((validLoop L args.num_valid_batches s 0 d).1,
        aggregate (validLoop L args.num_valid_batches s 0 d).2.1,
        aggregate (validLoop L args.num_valid_batches s 0 d).2.2) := by
  rw [valid]

/-! ### The off-by-one batch bound (claims C1 and C7) -/

theorem trainLoop_length (L : MetaLearner σ β) (k : ℕ) (stream : List β) :
    ∀ (s : σ) (idx : ℕ), idx ≤ k →
      (trainLoop L k s idx stream).2.1.length = min stream.length (k + 1 - idx) := by
  induction stream with
  | nil => intro s idx _; simp [trainLoop_nil]
  | cons b rest ih =>
    intro s idx hidx
    rw [trainLoop_cons]
    by_cases hk : k ≤ idx
    · have he : idx = k := le_antisymm hidx hk
      subst he
      simp [hk]
    · have h1 := ih (L.outer_loop_train s b).1 (idx + 1) (by omega)
      simp [hk, h1]
      omega

theorem validLoop_length (L : MetaLearner σ β) (k : ℕ) (stream : List β) :
    ∀ (s : σ) (idx : ℕ), idx ≤ k →
      (validLoop L k s idx stream).2.1.length = min stream.length (k + 1 - idx) := by
  induction stream with
  | nil => intro s idx _; simp [validLoop_nil]
  | cons b rest ih =>
    intro s idx hidx
    rw [validLoop_cons]
    by_cases hk : k ≤ idx
    · have he : idx = k := le_antisymm hidx hk
      subst he
      simp [hk]
    · have h1 := ih (L.outer_loop_eval s b).1 (idx + 1) (by omega)
      simp [hk, h1]
      omega

theorem trainLoop_take (L : MetaLearner σ β) (k : ℕ) (stream : List β) :
    ∀ (s : σ) (idx : ℕ), idx ≤ k →
      trainLoop L k s idx (stream.take (k + 1 - idx)) = trainLoop L k s idx stream := by
  induction stream with
  | nil => intro s idx _; simp
  | cons b rest ih =>
    intro s idx hidx
    obtain ⟨m, hm⟩ : ∃ m, k + 1 - idx = m + 1 := ⟨k - idx, by omega⟩
    rw [hm, List.take_succ_cons]
    by_cases hk : k ≤ idx
    · have hm0 : m = 0 := by omega
      subst hm0
      rw [trainLoop_cons, trainLoop_cons, if_pos hk, if_pos hk]
    · rw [trainLoop_cons, trainLoop_cons, if_neg hk, if_neg hk]
      have hrw : m = k + 1 - (idx + 1) := by omega
      rw [hrw, ih (L.outer_loop_train s b).1 (idx + 1) (by omega)]

theorem validLoop_take (L : MetaLearner σ β) (k : ℕ) (stream : List β) :
    ∀ (s : σ) (idx : ℕ), idx ≤ k →
      validLoop L k s idx (stream.take (k + 1 - idx)) = validLoop L k s idx stream := by
  induction stream with
  | nil => intro s idx _; simp
  | cons b rest ih =>
    intro s idx hidx
    obtain ⟨m, hm⟩ : ∃ m, k + 1 - idx = m + 1 := ⟨k - idx, by omega⟩
    rw [hm, List.take_succ_cons]
    by_cases hk : k ≤ idx
    · have hm0 : m = 0 := by omega
      subst hm0
      rw [validLoop_cons, validLoop_cons, if_pos hk, if_pos hk]
    · rw [validLoop_cons, validLoop_cons, if_neg hk, if_neg hk]
      have hrw : m = k + 1 - (idx + 1) := by omega
      rw [hrw, ih (L.outer_loop_eval s b).1 (idx + 1) (by omega)]

theorem trainLoop_budget_eq (L : MetaLearner σ β) (stream : List β) :
    ∀ (s : σ) (idx k k' : ℕ), idx + stream.length ≤ k → idx + stream.length ≤ k' →
      trainLoop L k s idx stream = trainLoop L k' s idx stream := by
  induction stream with
  | nil => intro s idx k k' _ _; rfl
  | cons b rest ih =>
    intro s idx k k' h h'
    have hk : ¬ k ≤ idx := by simp at h ⊢; omega
    have hk' : ¬ k' ≤ idx := by simp at h' ⊢; omega
    rw [trainLoop_cons, trainLoop_cons, if_neg hk, if_neg hk',
      ih (L.outer_loop_train s b).1 (idx + 1) k k' (by simp at h ⊢; omega)
        (by simp at h' ⊢; omega)]

theorem validLoop_budget_eq (L : MetaLearner σ β) (stream : List β) :
    ∀ (s : σ) (idx k k' : ℕ), idx + stream.length ≤ k → idx + stream.length ≤ k' →
      validLoop L k s idx stream = validLoop L k' s idx stream := by
  induction stream with
  | nil => intro s idx k k' _ _; rfl
  | cons b rest ih =>
    intro s idx k k' h h'
    have hk : ¬ k ≤ idx := by simp at h ⊢; omega
    have hk' : ¬ k' ≤ idx := by simp at h' ⊢; omega
    rw [validLoop_cons, validLoop_cons, if_neg hk, if_neg hk',
      ih (L.outer_loop_eval s b).1 (idx + 1) k k' (by simp at h ⊢; omega)
        (by simp at h' ⊢; omega)]

/-- C1: a phase run (train or eval) with batch budget `k`, on a stream that
yields at least `k + 2` batches, records metrics for exactly `k + 1` batches
(0-based indices, stop check `batch_idx >= k` after recording), and its whole
result is already determined by the first `k + 1` batches of the stream — the
batch with index `k + 1` is never consumed. -/
theorem claim_c1 (args : Args) (L : MetaLearner σ β) (s : σ) (stream : List β)
    (h1 : args.num_train_batches + 2 ≤ stream.length)
    (h2 : args.num_valid_batches + 2 ≤ stream.length) :
    (trainLoop L args.num_train_batches s 0 stream).2.1.length =
        args.num_train_batches + 1
    ∧ train args L s stream =
        train args L s (stream.take (args.num_train_batches + 1))
    ∧ (validLoop L args.num_valid_batches s 0 stream).2.1.length =
        args.num_valid_batches + 1
    ∧ valid args L s stream =
        valid args L s (stream.take (args.num_valid_batches + 1)) := by
  refine ⟨?_, ?_, ?_, ?_⟩
  · rw [trainLoop_length L _ stream s 0 (Nat.zero_le _)]
    omega
  · rw [train_eq, train_eq]
    have h := trainLoop_take L args.num_train_batches stream s 0 (Nat.zero_le _)
    simp only [Nat.sub_zero] at h
    rw [h]
  · rw [validLoop_length L _ stream s 0 (Nat.zero_le _)]
    omega
  · rw [valid_eq, valid_eq]
    have h := validLoop_take L args.num_valid_batches stream s 0 (Nat.zero_le _)
    simp only [Nat.sub_zero] at h
    rw [h]

/-- Witness for C1 at `k_train = 2`, `k_valid = 3`, stream of 5 batches. -/
theorem claim_c1_witness :
    (trainLoop Lw argsW.num_train_batches 0 0 [1, 2, 3, 4, 5]).2.1.length =
        argsW.num_train_batches + 1
    ∧ train argsW Lw 0 [1, 2, 3, 4, 5] =
        train argsW Lw 0 ([1, 2, 3, 4, 5].take (argsW.num_train_batches + 1))
    ∧ (validLoop Lw argsW.num_valid_batches 0 0 [1, 2, 3, 4, 5]).2.1.length =
        argsW.num_valid_batches + 1
    ∧ valid argsW Lw 0 [1, 2, 3, 4, 5] =
        valid argsW Lw 0 ([1, 2, 3, 4, 5].take (argsW.num_valid_batches + 1)) :=
  claim_c1 argsW Lw 0 [1, 2, 3, 4, 5] (by decide) (by decide)

/-- C7: when the stream yields fewer batches than the budget, the phase ends
early: every available batch is processed (the metric lists have the stream's
length) and the result is what any sufficiently large budget would give — the
summary is computed over exactly the batches obtained, with no error. -/
theorem claim_c7 (args : Args) (L : MetaLearner σ β) (s : σ) (stream : List β)
    (h1 : stream.length < args.num_train_batches)
    (h2 : stream.length < args.num_valid_batches) :
    (trainLoop L args.num_train_batches s 0 stream).2.1.length = stream.length
    ∧ (∀ k', stream.length ≤ k' →
        trainLoop L k' s 0 stream = trainLoop L args.num_train_batches s 0 stream)
    ∧ (validLoop L args.num_valid_batches s 0 stream).2.1.length = stream.length
    ∧ (∀ k', stream.length ≤ k' →
        validLoop L k' s 0 stream = validLoop L args.num_valid_batches s 0 stream) := by
  refine ⟨?_, ?_, ?_, ?_⟩
  · rw [trainLoop_length L _ stream s 0 (Nat.zero_le _)]
    omega
  · intro k' hk'
    exact trainLoop_budget_eq L stream s 0 k' args.num_train_batches
      (by omega) (by omega)
  · rw [validLoop_length L _ stream s 0 (Nat.zero_le _)]
    omega
  · intro k' hk'
    exact validLoop_budget_eq L stream s 0 k' args.num_valid_batches
      (by omega) (by omega)

/-- Witness for C7: one batch, budgets 2 and 3. -/
theorem claim_c7_witness :
    (trainLoop Lw argsW.num_train_batches 0 0 [9]).2.1.length = [9].length
    ∧ (∀ k', [9].length ≤ k' →
        trainLoop Lw k' 0 0 [9] = trainLoop Lw argsW.num_train_batches 0 0 [9])
    ∧ (validLoop Lw argsW.num_valid_batches 0 0 [9]).2.1.length = [9].length
    ∧ (∀ k', [9].length ≤ k' →
        validLoop Lw k' 0 0 [9] = validLoop Lw argsW.num_valid_batches 0 0 [9]) :=
  claim_c7 argsW Lw 0 [9] (by decide) (by decide)

/-! ### Aggregation (claims C2 and C3) -/

/-- C2: for a non-empty collected metric list, the reported summary is the
arithmetic mean of the exact (unrounded) values with `np.round(·, 4)` applied
once at the end, and any reordering of the collected values yields the same
summary. -/
theorem claim_c2 (xs ys : List ℚ) (hne : xs ≠ []) (hperm : List.Perm ys xs) :
    aggregate xs = some (np_round4 (xs.sum / xs.length))
    ∧ aggregate ys = aggregate xs := by
  have hxe : xs.isEmpty = false := by
    cases xs with
    | nil => exact absurd rfl hne
    | cons a t => rfl
  have hyne : ys ≠ [] := by
    intro h
    subst h
    exact hne hperm.symm.eq_nil
  have hye : ys.isEmpty = false := by
    cases ys with
    | nil => exact absurd rfl hyne
    | cons a t => rfl
  constructor
  · simp [aggregate, npMean, hxe]
  · simp [aggregate, npMean, hxe, hye, hperm.sum_eq, hperm.length_eq]

/-- Witness for C2: `[1, 2, 4]` and its reordering `[4, 1, 2]`. -/
theorem claim_c2_witness :
    aggregate [(1 : ℚ), 2, 4] =
        some (np_round4 (([(1 : ℚ), 2, 4].sum) / ([(1 : ℚ), 2, 4].length)))
    ∧ aggregate [(4 : ℚ), 1, 2] = aggregate [(1 : ℚ), 2, 4] :=
  claim_c2 [1, 2, 4] [4, 1, 2] (by decide) (by decide)

/-- Counterexample to C3 as stated: on a stream yielding zero batches neither
phase raises anything — `train` and `valid` return a summary whose every field
is `NaN` (`np.mean([])`), here at the concrete learner `Lw`, state `0`. -/
theorem claim_c3_counterexample :
    train argsW Lw 0 ([] : List ℕ) = (0, none, none, none)
    ∧ valid argsW Lw 0 ([] : List ℕ) = (0, none, none) := by
  constructor <;> rfl

/-- C3 amended: on a stream yielding zero batches, the phase does not raise an
`EmptyPhaseError` (the source defines no such error); it returns a
`PhaseSummary` whose every field is `NaN` — modelled as `none` — and leaves
the learner state unchanged. -/
theorem claim_c3_amended (args : Args) (L : MetaLearner σ β) (s : σ) :
    train args L s ([] : List β) = (s, none, none, none)
    ∧ valid args L s ([] : List β) = (s, none, none) := by
  constructor <;> rfl

/-! ### Eval phase does not mutate the learner (claim C4) -/

theorem validLoop_state (L : MetaLearner σ β)
    (Hev : ∀ (s : σ) (b : β), (L.outer_loop_eval s b).1 = s) (stream : List β) :
    ∀ (s : σ) (idx k : ℕ), (validLoop L k s idx stream).1 = s := by
  induction stream with
  | nil => intro s idx k; rfl
  | cons b rest ih =>
    intro s idx k
    rw [validLoop_cons]
    by_cases hk : k ≤ idx
    · simp [hk, Hev]
    · simp [hk, ih, Hev]

/-- C4: under the interface contract that `outer_loop(·, is_train=False)`
leaves the learner state unchanged (the spec's hard invariant for eval), the
eval phase returns the learner state it was given, and running the phase a
second time on the same batches — from the state left by the first run —
reproduces the first run exactly, per-batch metrics included. -/
theorem claim_c4 (L : MetaLearner σ β)
    (Hev : ∀ (s : σ) (b : β), (L.outer_loop_eval s b).1 = s)
    (args : Args) (s : σ) (stream : List β) :
    (valid args L s stream).1 = s
    ∧ valid args L (valid args L s stream).1 stream = valid args L s stream
    ∧ validLoop L args.num_valid_batches (valid args L s stream).1 0 stream =
        validLoop L args.num_valid_batches s 0 stream := by
  have hfst : (valid args L s stream).1 = s := by
    rw [valid_eq]
    exact validLoop_state L Hev stream s 0 _
  exact ⟨hfst, by rw [hfst], by rw [hfst]⟩

/-- Witness for C4: `Lw.outer_loop_eval` returns its state unchanged. -/
theorem claim_c4_witness :
    (valid argsW Lw 7 [5, 6]).1 = 7
    ∧ valid argsW Lw (valid argsW Lw 7 [5, 6]).1 [5, 6] = valid argsW Lw 7 [5, 6]
    ∧ validLoop Lw argsW.num_valid_batches (valid argsW Lw 7 [5, 6]).1 0 [5, 6] =
        validLoop Lw argsW.num_valid_batches 7 0 [5, 6] :=
  claim_c4 Lw (fun _ _ => rfl) argsW 7 [5, 6]

/-! ### BestTracker (claim C5) -/

theorem bestScan_cons (st : BestState) (r : EpochRes) (rest : List EpochRes) :
    bestScan st (r :: rest) =
      (bestTrackerStep st r).2 :: bestScan (bestTrackerStep st r).1 rest := by
  rw [bestScan]

theorem bestTrackerStep_snd (st : BestState) (r : EpochRes) :
    (bestTrackerStep st r).2 = vgt r.valid_acc st.best_value := by
  rw [bestTrackerStep]
  split <;> simp_all

theorem bestTrackerStep_fst_value (st : BestState) (r : EpochRes) (v : ℚ)
    (h : r.valid_acc = some v) :
    (bestTrackerStep st r).1.best_value =
      if vgt (some v) st.best_value then some v else st.best_value := by
  rw [bestTrackerStep, h]
  split <;> simp_all

theorem vgt_step (x y : ℚ) (b : Option ℚ) :
    vgt (some x) (if vgt (some y) b then some y else b) = true ↔
      (vgt (some x) b = true ∧ y < x) := by
  cases b with
  | none => simp [vgt]
  | some m =>
    by_cases hmy : m < y
    · simp [vgt, hmy, decide_eq_true_eq]
      intro hyx
      exact lt_trans hmy hyx
    · simp [vgt, hmy, decide_eq_true_eq]
      intro hmx
      exact lt_of_le_of_lt (le_of_not_lt hmy) hmx

theorem vgt_runningBest (x : ℚ) (l : List ℚ) :
    ∀ b, vgt (some x) (runningBest b l) = true ↔
      (vgt (some x) b = true ∧ ∀ y ∈ l, y < x) := by
  induction l with
  | nil => intro b; simp [runningBest]
  | cons y t ih =>
    intro b
    have hstep : runningBest b (y :: t) =
        runningBest (if vgt (some y) b then some y else b) t := rfl
    rw [hstep, ih, vgt_step]
    simp only [List.forall_mem_cons]
    tauto

theorem bestScan_getD (rs : List EpochRes) :
    ∀ (st : BestState) (i : ℕ), i < rs.length →
      (bestScan st rs).getD i false =
        vgt ((rs.getD i default).valid_acc)
          ((rs.take i).foldl (fun st r => (bestTrackerStep st r).1) st).best_value := by
  induction rs with
  | nil => intro st i h; simp at h
  | cons r rest ih =>
    intro st i h
    rw [bestScan_cons]
    cases i with
    | zero =>
      simp only [List.getD_cons_zero, List.take_zero, List.foldl_nil]
      exact bestTrackerStep_snd st r
    | succ j =>
      simp only [List.getD_cons_succ, List.take_succ_cons, List.foldl_cons]
      exact ih (bestTrackerStep st r).1 j (by simpa using h)

theorem bestFold_value (rs : List EpochRes) :
    ∀ (vas : List ℚ), rs.map (fun r => r.valid_acc) = vas.map some →
      ∀ (st : BestState),
        (rs.foldl (fun st r => (bestTrackerStep st r).1) st).best_value =
          runningBest st.best_value vas := by
  induction rs with
  | nil =>
    intro vas h st
    cases vas with
    | nil => simp [runningBest]
    | cons v vt => simp at h
  | cons r rest ih =>
    intro vas h st
    cases vas with
    | nil => simp at h
    | cons v vt =>
      simp only [List.map_cons, List.cons.injEq] at h
      obtain ⟨h1, h2⟩ := h
      rw [List.foldl_cons]
      have hpb : runningBest st.best_value (v :: vt) =
          runningBest (if vgt (some v) st.best_value then some v
            else st.best_value) vt := rfl
      rw [hpb, ih vt h2 (bestTrackerStep st r).1]
      rw [bestTrackerStep_fst_value st r v h1]

/-- C5: with the `BestTracker` state initialized to the worst-possible value,
the `is_best` flag of epoch `i` is `true` exactly when its `valid_acc` is
strictly greater than every prior epoch's `valid_acc`; on a best epoch the
tracker state becomes `(valid_acc, epoch)`, otherwise it is unchanged — so of
two consecutive epochs with identical `valid_acc`, only the first is best. -/
theorem claim_c5 (rs : List EpochRes) (vas : List ℚ)
    (hva : rs.map (fun r => r.valid_acc) = vas.map some)
    (i : ℕ) (hi : i < rs.length) :
    ((bestScan initBest rs).getD i false = true ↔
      ∀ j, j < i → vas.getD j 0 < vas.getD i 0)
    ∧ bestFoldState (rs.take (i + 1)) =
        (if (bestScan initBest rs).getD i false then
          BestState.mk (some (vas.getD i 0)) (some ((rs.getD i default).epoch))
        else bestFoldState (rs.take i)) := by
  have hlen : vas.length = rs.length := by
    have h0 := congrArg List.length hva
    simp at h0
    omega
  have hvai : (rs.getD i default).valid_acc = some (vas.getD i 0) := by
    have h1 := List.getElem_of_eq hva
      (show i < (rs.map (fun r => r.valid_acc)).length by simpa using hi)
    rw [List.getElem_map, List.getElem_map] at h1
    rw [List.getD_eq_getElem rs default hi,
      List.getD_eq_getElem vas 0 (by omega)]
    exact h1
  have hmt : (rs.take i).map (fun r => r.valid_acc) = (vas.take i).map some := by
    rw [List.map_take, List.map_take, hva]
  have hfv : (bestFoldState (rs.take i)).best_value =
      runningBest none (vas.take i) := by
    rw [bestFoldState, bestFold_value (rs.take i) (vas.take i) hmt initBest]
    rfl
  have hflag := bestScan_getD rs initBest i hi
  rw [hvai] at hflag
  have hfold : (rs.take i).foldl (fun st r => (bestTrackerStep st r).1) initBest =
      bestFoldState (rs.take i) := rfl
  rw [hfold, hfv] at hflag
  constructor
  · rw [hflag, vgt_runningBest]
    have hvgtnone : vgt (some (vas.getD i 0)) none = true := rfl
    simp only [hvgtnone, true_and]
    constructor
    · intro h j hj
      have hjv : j < vas.length := by omega
      have hjt : j < (vas.take i).length := by simp; omega
      have hmem : vas.getD j 0 ∈ vas.take i := by
        have : (vas.take i)[j] = vas[j] := List.getElem_take vas
        rw [List.getD_eq_getElem vas 0 hjv, ← this]
        exact List.getElem_mem hjt
      exact h _ hmem
    · intro h y hy
      obtain ⟨j, hjt, hjy⟩ := List.mem_iff_getElem.mp hy
      have hji : j < i := by
        have := hjt
        simp at this
        omega
      have hjv : j < vas.length := by omega
      have : (vas.take i)[j] = vas[j] := List.getElem_take vas
      rw [this] at hjy
      rw [← hjy, ← List.getD_eq_getElem vas 0 hjv]
      exact h j hji
  · have htk : rs.take (i + 1) = rs.take i ++ [rs[i]] := by
      rw [List.take_succ, List.getElem?_eq_getElem hi]
      rfl
    have hgd : rs.getD i default = rs[i] := List.getD_eq_getElem rs default hi
    rw [htk, bestFoldState, List.foldl_append]
    have hfold2 : (rs.take i).foldl (fun st r => (bestTrackerStep st r).1) initBest =
        bestFoldState (rs.take i) := rfl
    rw [hfold2, List.foldl_cons, List.foldl_nil]
    by_cases hb : (bestScan initBest rs).getD i false = true
    · rw [if_pos hb]
      have hcond : vgt (rs[i].valid_acc) (bestFoldState (rs.take i)).best_value
          = true := by
        rw [← hgd, hvai, hfv, ← hflag]
        exact hb
      rw [bestTrackerStep, if_pos hcond, ← hgd, hvai]
    · rw [if_neg hb]
      have hcond : ¬ (vgt (rs[i].valid_acc)
          (bestFoldState (rs.take i)).best_value = true) := by
        rw [← hgd, hvai, hfv, ← hflag]
        exact hb
      rw [bestTrackerStep, if_neg hcond]

/-- Witness for C5: two epochs with identical `valid_acc = 0.8`; at `i = 1`
the flag is governed by strict improvement over epoch 0, so it is `false`. -/
theorem claim_c5_witness :
    ((bestScan initBest rsW).getD 1 false = true ↔
      ∀ j, j < 1 → vasW.getD j 0 < vasW.getD 1 0)
    ∧ bestFoldState (rsW.take 2) =
        (if (bestScan initBest rsW).getD 1 false then
          BestState.mk (some (vasW.getD 1 0)) (some ((rsW.getD 1 default).epoch))
        else bestFoldState (rsW.take 1)) :=
  claim_c5 rsW vasW rfl 1 (by decide)

/-! ### Epoch orchestration (claim C6) -/

/-- C6: `run_epoch` (body) runs `train` on the train loader, then `valid` on
the validation loader from the state `train` left, then `valid` on the test
loader from the state the first `valid` left (both `valid` calls read
`num_valid_batches`), and the assembled ordered record has exactly the keys
`epoch, train_loss, train_acc, train_grad, valid_loss, valid_acc, test_loss,
test_acc` in that order, filled from the three phase summaries and the epoch
index. -/
theorem claim_c6 (e : ℕ) (args : Args) (L : MetaLearner σ β) (s : σ)
    (tl vl wl : List β) :
    run_epoch_body e args L s tl vl wl =
      ((valid args L (valid args L (train args L s tl).1 vl).1 wl).1,
        ⟨e, (train args L s tl).2.1, (train args L s tl).2.2.1,
          (train args L s tl).2.2.2,
          (valid args L (train args L s tl).1 vl).2.1,
          (valid args L (train args L s tl).1 vl).2.2,
          (valid args L (valid args L (train args L s tl).1 vl).1 wl).2.1,
          (valid args L (valid args L (train args L s tl).1 vl).1 wl).2.2⟩)
    ∧ (run_epoch_body e args L s tl vl wl).2.items.map Prod.fst =
        ["epoch", "train_loss", "train_acc", "train_grad",
          "valid_loss", "valid_acc", "test_loss", "test_acc"] := by
  constructor <;> rfl

/-! ### main: dispatch, loading, epoch loop (claims C8, C9, C10) -/

theorem epochStep_events (args : Args) (L : MetaLearner σ β)
    (ts vs ws : ℕ → List β) (st : σ × BestState) (e : ℕ) :
    (epochStep args L ts vs ws st e).2 =
      [Event.append e]
        ++ (if (run_epoch e args L st.1 (ts e) (vs e) (ws e) st.2).2.2.2
            then [Event.save e] else [])
        ++ (if args.lr_sched then [Event.lr_sched] else []) := by
  rw [epochStep]

theorem epochLoop_cons (args : Args) (L : MetaLearner σ β)
    (ts vs ws : ℕ → List β) (st : σ × BestState) (e : ℕ) (rest : List ℕ) :
    epochLoop args L ts vs ws st (e :: rest) =
      ((epochLoop args L ts vs ws (epochStep args L ts vs ws st e).1 rest).1,
        (epochStep args L ts vs ws st e).2 ++
          (epochLoop args L ts vs ws (epochStep args L ts vs ws st e).1 rest).2) := by
  rw [epochLoop]

theorem epochStep_events_shape (args : Args) (L : MetaLearner σ β)
    (ts vs ws : ℕ → List β) (st : σ × BestState) (e : ℕ) :
    ∀ ev ∈ (epochStep args L ts vs ws st e).2,
      ev = Event.append e ∨ ev = Event.save e ∨ ev = Event.lr_sched := by
  intro ev hmem
  rw [epochStep_events] at hmem
  rcases List.mem_append.mp hmem with hm | hm
  · rcases List.mem_append.mp hm with hm2 | hm2
    · left
      simpa using hm2
    · right
      left
      split at hm2
      · simpa using hm2
      · simp at hm2
  · right
    right
    split at hm
    · simpa using hm
    · simp at hm

theorem epochLoop_no_load (args : Args) (L : MetaLearner σ β)
    (ts vs ws : ℕ → List β) (es : List ℕ) :
    ∀ st : σ × BestState,
      Event.load ∉ (epochLoop args L ts vs ws st es).2
      ∧ Event.load_encoder ∉ (epochLoop args L ts vs ws st es).2 := by
  induction es with
  | nil => intro st; simp [epochLoop]
  | cons e rest ih =>
    intro st
    constructor <;> intro hmem <;> rw [epochLoop_cons] at hmem <;>
      simp only [List.mem_append] at hmem
    · rcases hmem with hm | hm
      · rcases epochStep_events_shape args L ts vs ws st e Event.load hm
          with h | h | h <;> simp at h
      · exact (ih _).1 hm
    · rcases hmem with hm | hm
      · rcases epochStep_events_shape args L ts vs ws st e Event.load_encoder hm
          with h | h | h <;> simp at h
      · exact (ih _).2 hm

/-- C8: for any algorithm name outside
`{MAML, Reptile, Neumann, CAVIA, iMAML, FOMAML}` `main` fails with its
`ValueError` immediately — the run produces no events at all, so no checkpoint
load, no stream construction and no phase ever happens — and each name in the
set dispatches to the corresponding learner variant. -/
theorem claim_c8 (args : Args) (L : MetaLearner σ β) (s0 : σ)
    (ts vs ws : ℕ → List β)
    (h : args.alg ∉ (["MAML", "Reptile", "Neumann", "CAVIA", "iMAML",
      "FOMAML"] : List String)) :
    mainRun args L s0 ts vs ws = Except.error MainError.notImplementedAlg
    ∧ dispatch "MAML" = some Alg.MAML
    ∧ dispatch "Reptile" = some Alg.Reptile
    ∧ dispatch "Neumann" = some Alg.Neumann
    ∧ dispatch "CAVIA" = some Alg.CAVIA
    ∧ dispatch "iMAML" = some Alg.iMAML
    ∧ dispatch "FOMAML" = some Alg.FOMAML := by
  simp only [List.mem_cons, List.not_mem_nil, or_false, not_or] at h
  obtain ⟨h1, h2, h3, h4, h5, h6⟩ := h
  refine ⟨?_, rfl, rfl, rfl, rfl, rfl, rfl⟩
  rw [mainRun, dispatch]
  rw [if_neg h1, if_neg h2, if_neg h3, if_neg h4, if_neg h5, if_neg h6]

/-- Witness for C8 at the unknown name `"maml"` (dispatch is case-sensitive). -/
theorem claim_c8_witness :
    mainRun { argsW with alg := "maml" } Lw 0 (fun _ => [1]) (fun _ => [2])
        (fun _ => [3]) = Except.error MainError.notImplementedAlg
    ∧ dispatch "MAML" = some Alg.MAML
    ∧ dispatch "Reptile" = some Alg.Reptile
    ∧ dispatch "Neumann" = some Alg.Neumann
    ∧ dispatch "CAVIA" = some Alg.CAVIA
    ∧ dispatch "iMAML" = some Alg.iMAML
    ∧ dispatch "FOMAML" = some Alg.FOMAML :=
  claim_c8 { argsW with alg := "maml" } Lw 0 (fun _ => [1]) (fun _ => [2])
    (fun _ => [3]) (by decide)

/-- C9: checkpoint loading is mutually exclusive with `load` taking
precedence: `load = true` produces exactly a `model.load()` call (never
`load_encoder`), `load = false ∧ load_encoder = true` produces exactly
`model.load_encoder()`, both false produce neither; and in a successful run
the load step sits before the stream constructions and the epoch loop, whose
trace contains no load events. -/
theorem claim_c9 (args : Args) (L : MetaLearner σ β) (s0 : σ)
    (ts vs ws : ℕ → List β) (h : (dispatch args.alg).isSome = true) :
    mainRun args L s0 ts vs ws =
      Except.ok (loadEvents args ++ streamEvents ++
        (epochLoop args L ts vs ws (s0, initBest)
          (List.range args.num_epoch)).2,
        (epochLoop args L ts vs ws (s0, initBest)
          (List.range args.num_epoch)).1)
    ∧ (args.load = true → loadEvents args = [Event.load])
    ∧ (args.load = false → args.load_encoder = true →
        loadEvents args = [Event.load_encoder])
    ∧ (args.load = false → args.load_encoder = false → loadEvents args = [])
    ∧ Event.load ∉ streamEvents ++
        (epochLoop args L ts vs ws (s0, initBest)
          (List.range args.num_epoch)).2
    ∧ Event.load_encoder ∉ streamEvents ++
        (epochLoop args L ts vs ws (s0, initBest)
          (List.range args.num_epoch)).2 := by
  obtain ⟨a, ha⟩ := Option.isSome_iff_exists.mp h
  have hloop := epochLoop_no_load args L ts vs ws (List.range args.num_epoch)
    (s0, initBest)
  refine ⟨?_, ?_, ?_, ?_, ?_, ?_⟩
  · rw [mainRun, ha]
  · intro hl
    rw [loadEvents, if_pos hl]
  · intro hl hle
    rw [loadEvents, if_neg (by simp [hl]), if_pos hle]
  · intro hl hle
    rw [loadEvents, if_neg (by simp [hl]), if_neg (by simp [hle])]
  · intro hmem
    rcases List.mem_append.mp hmem with hm | hm
    · simp [streamEvents] at hm
    · exact hloop.1 hm
  · intro hmem
    rcases List.mem_append.mp hmem with hm | hm
    · simp [streamEvents] at hm
    · exact hloop.2 hm

/-- Witness for C9: `load = true` and `load_encoder = true` together — only
`model.load()` is called, before streams and epochs. -/
theorem claim_c9_witness :
    mainRun { argsW with load := true, load_encoder := true } Lw 0
        (fun _ => [1]) (fun _ => [2]) (fun _ => [3]) =
      Except.ok (loadEvents { argsW with load := true, load_encoder := true } ++
        streamEvents ++
        (epochLoop { argsW with load := true, load_encoder := true } Lw
          (fun _ => [1]) (fun _ => [2]) (fun _ => [3]) (0, initBest)
          (List.range argsW.num_epoch)).2,
        (epochLoop { argsW with load := true, load_encoder := true } Lw
          (fun _ => [1]) (fun _ => [2]) (fun _ => [3]) (0, initBest)
          (List.range argsW.num_epoch)).1)
    ∧ ({ argsW with load := true, load_encoder := true }.load = true →
        loadEvents { argsW with load := true, load_encoder := true } =
          [Event.load])
    ∧ ({ argsW with load := true, load_encoder := true }.load = false →
        { argsW with load := true, load_encoder := true }.load_encoder = true →
        loadEvents { argsW with load := true, load_encoder := true } =
          [Event.load_encoder])
    ∧ ({ argsW with load := true, load_encoder := true }.load = false →
        { argsW with load := true, load_encoder := true }.load_encoder = false →
        loadEvents { argsW with load := true, load_encoder := true } = [])
    ∧ Event.load ∉ streamEvents ++
        (epochLoop { argsW with load := true, load_encoder := true } Lw
          (fun _ => [1]) (fun _ => [2]) (fun _ => [3]) (0, initBest)
          (List.range argsW.num_epoch)).2
    ∧ Event.load_encoder ∉ streamEvents ++
        (epochLoop { argsW with load := true, load_encoder := true } Lw
          (fun _ => [1]) (fun _ => [2]) (fun _ => [3]) (0, initBest)
          (List.range argsW.num_epoch)).2 :=
  claim_c9 { argsW with load := true, load_encoder := true } Lw 0
    (fun _ => [1]) (fun _ => [2]) (fun _ => [3]) rfl

/-- C10: in each iteration of `main`'s epoch loop, the first recorded effect
is appending the epoch's result row (`dict2tsv`); `model.save` is invoked
exactly when `run_epoch` reported `is_best = true`, and only after the row
append — so a save failure cannot precede the row being written. -/
theorem claim_c10 (args : Args) (L : MetaLearner σ β) (ts vs ws : ℕ → List β)
    (st : σ × BestState) (e : ℕ) :
    (epochStep args L ts vs ws st e).2 =
      [Event.append e]
        ++ (if (run_epoch e args L st.1 (ts e) (vs e) (ws e) st.2).2.2.2
            then [Event.save e] else [])
        ++ (if args.lr_sched then [Event.lr_sched] else [])
    ∧ ((epochStep args L ts vs ws st e).2.head? = some (Event.append e))
    ∧ (Event.save e ∈ (epochStep args L ts vs ws st e).2 ↔
        (run_epoch e args L st.1 (ts e) (vs e) (ws e) st.2).2.2.2 = true) := by
  refine ⟨epochStep_events args L ts vs ws st e, ?_, ?_⟩
  · rw [epochStep_events]
    rfl
  · rw [epochStep_events]
    constructor
    · intro hmem
      rcases List.mem_append.mp hmem with hm | hm
      · rcases List.mem_append.mp hm with hm2 | hm2
        · simp at hm2
        · split at hm2
          · assumption
          · simp at hm2
      · split at hm <;> simp at hm
    · intro hflag
      simp [hflag]

end Imaml
